import Mathlib

/-!
Shallow embedding of the `DockerManager` class (src/index.js) together with
proofs relating its behaviour to the repository's natural-language
specification.  The dockerode engine is modelled as explicit state; every
RPC the manager issues is recorded in an event trace, so call counts and
call order are observable.  JavaScript object identity (which
`Array.prototype.includes` compares) is modelled by an `id` field on specs:
two distinct objects with equal fields are records with different `id`s.
-/

deriving instance DecidableEq for Except

namespace DockerMgr

/-- A workload spec (the JSDoc `DockerImage` object): `name` is the image
reference, `containerName` the (possibly not yet derived) container name.
`id` models JavaScript object identity.  The opaque `options` bag, which the
manager never inspects, is omitted. -/
structure Spec where
  id : Nat
  name : String
  containerName : String
deriving Repr, DecidableEq

/-- An engine-side container: `names` models dockerode's `Names` array
(entries carry a leading `/`), `status` the inspect record's
`State.Status`. -/
structure Container where
  names : List String
  status : String
deriving Repr, DecidableEq

/-- Engine state.  `images` holds each stored image's `RepoTags` list (a
null `RepoTags` is modelled as an empty list: both fail the membership
test at src/index.js:57).  `removeFails` injects an engine rejection of
`container.remove()`, used to examine the error path of teardown. -/
structure EngineState where
  images : List (List String)
  containers : List Container
  removeFails : Bool
deriving Repr, DecidableEq

/-- The engine RPCs the manager issues.  dockerode's `getContainer` builds
a local handle without a round trip, so it is not an event. -/
inductive Event where
  | listImagesE
  | pullE (ref : String)
  | listContainersE
  | createE (image name : String)
  | startE (name : String)
  | inspectE (name : String)
  | stopE (name : String)
  | removeE (name : String)
deriving Repr, DecidableEq

/-- Whole-system state: the engine plus the manager's two bookkeeping lists
(`_runningImageList`, `_stoppingImageList`) and the RPC trace. -/
structure MState where
  engine : EngineState
  running : List Spec
  stopped : List Spec
  trace : List Event
deriving Repr, DecidableEq

/-- Record one issued RPC. -/
def emit (st : MState) (e : Event) : MState :=
  { st with trace := st.trace ++ [e] }

/-- Resolve a container by name key (the engine matches a handle name `n`
against the container whose `Names` contains `"/" ++ n`). -/
def findC (cs : List Container) (key : String) : Option Container :=
  cs.find? (fun c => c.names.contains key)

/-- Mark the container matching `key` as exited. -/
def setStopped (cs : List Container) (key : String) : List Container :=
  cs.map (fun c => if c.names.contains key then { c with status := "exited" } else c)

/-- `docker.createContainer({Image, name, ...})`: the daemon rejects the
request when the image is absent (`No such image`) or the name is taken;
otherwise a container in status `created`, named `/<name>`, is appended. -/
def engineCreate (e : EngineState) (image name : String) : EngineState × Except String Unit :=
  if e.images.any (fun tags => tags.contains image) then
    if (findC e.containers ("/" ++ name)).isSome then
      (e, .error "name conflict")
    else
      ({ e with containers := e.containers ++ [Container.mk ["/" ++ name] "created"] }, .ok ())
  else
    (e, .error "no such image")

/-- `container.start()`: errors when the container is missing or already
running, otherwise marks it running. -/
def engineStart (e : EngineState) (key : String) : EngineState × Except String Unit :=
  match findC e.containers key with
  | none => (e, .error "no such container")
  | some c =>
    if c.status == "running" then (e, .error "container already started")
    else
      ({ e with containers := (e.containers.map
          (fun x => if x.names.contains key then { x with status := "running" } else x)) },
       .ok ())

/-- `container.inspect()`: returns the container's record or an error. -/
def engineInspect (e : EngineState) (key : String) : Except String Container :=
  match findC e.containers key with
  | some c => .ok c
  | none => .error "no such container"

/-- `container.stop()`: errors when the container is missing or not
running (dockerode surfaces the daemon's 304 as an error), otherwise marks
it exited. -/
def engineStop (e : EngineState) (key : String) : EngineState × Except String Unit :=
  match findC e.containers key with
  | none => (e, .error "no such container")
  | some c =>
    if c.status == "running" then
      ({ e with containers := setStopped e.containers key }, .ok ())
    else (e, .error "container already stopped")

/-- `container.remove()`: errors when the container is missing, or when the
injected `removeFails` flag is set; otherwise deletes the container. -/
def engineRemove (e : EngineState) (key : String) : EngineState × Except String Unit :=
  match findC e.containers key with
  | none => (e, .error "no such container")
  | some _ =>
    if e.removeFails then (e, .error "remove failed")
    else
      ({ e with containers := e.containers.filter (fun c => !(c.names.contains key)) }, .ok ())

/-- `DockerManager._formatContainerName` (src/index.js:193-195) appends
`"-container"` and then applies JavaScript `String.prototype.replace`
with the string pattern `':'`, which replaces only the FIRST occurrence:
`replaceFirst` is that semantics at the character level. -/
def replaceFirst : List Char → List Char
  | [] => []
  | c :: cs => if c = ':' then '-' :: cs else c :: replaceFirst cs

/-- `DockerManager._formatContainerName` (src/index.js:193-195). -/
def formatContainerName (imageName : String) : String :=
  ⟨replaceFirst (imageName ++ "-container").data⟩

/-- The specification's description of name derivation (§4.1): suffix
`"-container"` and replace EVERY `:` by `-`.  Kept separate from
`formatContainerName`, which embeds the source, so the two can be
compared. -/
def specFormatName (imageName : String) : String :=
  ⟨(imageName ++ "-container").data.map (fun c => if c = ':' then '-' else c)⟩

/-- Bookkeeping lines src/index.js:118-121: push onto `_runningImageList`;
the `includes` guard is reference equality (record equality here, see
`Spec.id`), while the guarded `filter` matches by `containerName`. -/
def bookkeepStart (st : MState) (image : Spec) : MState :=
  let st1 := { st with running := st.running ++ [image] }
  if st1.stopped.contains image then
    { st1 with stopped := st1.stopped.filter (fun x => x.containerName != image.containerName) }
  else st1

/-- `DockerManager.startContainer` (src/index.js:94-126): list all
containers; when none bears `"/" ++ containerName`, create then start;
otherwise inspect, start only when not running — when already running the
method logs and returns early (line 114), SKIPPING the bookkeeping at
lines 118-121.  Errors are logged and rethrown (lines 122-125); state
changes made before a failure persist. -/
def startContainer (st : MState) (image : Spec) : MState × Except String Unit :=
  let st0 := emit st .listContainersE
  let key := "/" ++ image.containerName
  if st0.engine.containers.any (fun c => c.names.contains key) then
    let st1 := emit st0 (.inspectE image.containerName)
    match engineInspect st1.engine key with
    | .error msg => (st1, .error msg)
    | .ok c =>
      if c.status != "running" then
        let st2 := emit st1 (.startE image.containerName)
        match engineStart st2.engine key with
        | (e2, .error msg) => ({ st2 with engine := e2 }, .error msg)
        | (e2, .ok _) => (bookkeepStart { st2 with engine := e2 } image, .ok ())
      else
        (st1, .ok ())
  else
    let st1 := emit st0 (.createE image.name image.containerName)
    match engineCreate st1.engine image.name image.containerName with
    | (e, .error msg) => ({ st1 with engine := e }, .error msg)
    | (e, .ok _) =>
      let st2 := emit { st1 with engine := e } (.startE image.containerName)
      match engineStart st2.engine key with
      | (e2, .error msg) => ({ st2 with engine := e2 }, .error msg)
      | (e2, .ok _) => (bookkeepStart { st2 with engine := e2 } image, .ok ())

/-- `DockerManager.stopContainer` (src/index.js:152-169): stop the
container named `containerName`; on success push onto
`_stoppingImageList`, and when the very object is `includes`-present in
`_runningImageList`, replace that list by one filtered on
`containerName`; then, when requested, remove the container.  A remove
failure is rethrown but the bookkeeping above has already happened. -/
def stopContainer (st : MState) (image : Spec) (isRemoveContainer : Bool) :
    MState × Except String Unit :=
  let key := "/" ++ image.containerName
  let st1 := emit st (.stopE image.containerName)
  match engineStop st1.engine key with
  | (e, .error msg) => ({ st1 with engine := e }, .error msg)
  | (e, .ok _) =>
    let st2 := { st1 with engine := e }
    let st2 := { st2 with stopped := st2.stopped ++ [image] }
    let st2 :=
      if st2.running.contains image then
        { st2 with running := st2.running.filter (fun x => x.containerName != image.containerName) }
      else st2
    if isRemoveContainer then
      let st3 := emit st2 (.removeE image.containerName)
      match engineRemove st3.engine key with
      | (e2, .error msg) => ({ st3 with engine := e2 }, .error msg)
      | (e2, .ok _) => ({ st3 with engine := e2 }, .ok ())
    else (st2, .ok ())

/-- The loop body of `DockerManager.stop` (src/index.js:136-138) over the
element sequence the `for...of` iterator yields: each element is awaited
in turn and an error aborts the loop and propagates. -/
def stopLoop : List Spec → MState → Bool → MState × Except String Unit
  | [], st, _ => (st, .ok ())
  | s :: rest, st, isRemove =>
    match stopContainer st s isRemove with
    | (st1, .error msg) => (st1, .error msg)
    | (st1, .ok _) => stopLoop rest st1 isRemove

/-- `DockerManager.stop` (src/index.js:134-143) in a single-task execution:
`for (const Image of this._runningImageList)` captures the array object the
field refers to at loop entry; with no concurrent caller nothing mutates
that object in place during the loop (`stopContainer` REPLACES the field
with a filtered copy at line 159), so the iterator yields exactly the
entry value of the list. -/
def stop (st : MState) (isRemove : Bool) : MState × Except String Unit :=
  stopLoop st.running st isRemove

/-- JavaScript truthiness of the optional `IsStartContainer` argument:
an omitted argument is `undefined` (`none` here), which is falsy — the
documented default of `true` (src/index.js:50) is never installed. -/
def truthy : Option Bool → Bool
  | some b => b
  | none => false

/-- `DockerManager.pullImage` (src/index.js:54-86): list images; when some
image's `RepoTags` contains the reference, log and (when the flag is
truthy) start; otherwise pull — the stream is modelled as completing
successfully, upon which the `end` handler runs `startContainer` when the
flag is truthy and then resolves.  A `startContainer` rejection inside the
`end` handler leaves the JS promise forever pending; no claim exercises
that path, and it is surfaced here as an error. -/
def pullImage (st : MState) (image : Spec) (isStartContainer : Option Bool) :
    MState × Except String Unit :=
  let st0 := emit st .listImagesE
  if st0.engine.images.any (fun tags => tags.contains image.name) then
    if truthy isStartContainer then startContainer st0 image
    else (st0, .ok ())
  else
    let st1 := emit st0 (.pullE image.name)
    let st1 := { st1 with engine := { st1.engine with images := st1.engine.images ++ [[image.name]] } }
    if truthy isStartContainer then
      match startContainer st1 image with
      | (st2, .error msg) => (st2, .error msg)
      | (st2, .ok _) => (st2, .ok ())
    else (st1, .ok ())

/-- `DockerManager.init` (src/index.js:35-45) for a one-element batch.
`imageList.forEach(async (Image) => {...})` does not await its callbacks:
`init`'s own promise resolves once the synchronous loop ends, whatever the
callback outcome — a rejection becomes an unhandled rejection that the
`try/catch` at lines 36-44 can never observe.  For a single element the
event-loop schedule runs the callback's effects exactly as written here:
attach the derived name, then run `startContainer`.  The
`IsStartContainer` argument is passed at line 39, but `startContainer`
declares no such parameter and ignores it.  The returned pair is (the
eventual state once the callback has settled, the value `init`'s promise
resolves with). -/
def initOne (st : MState) (image : Spec) (isStartContainer : Bool) :
    MState × Except String Unit :=
  let image := { image with containerName := formatContainerName image.name }
  let st1 := (startContainer st image).1
  (st1, .ok ())

/-- One event-loop execution of `DockerManager.stop` in which a concurrent
`startContainer` call completes its bookkeeping push (src/index.js:118)
while the loop's first `container.stop()` round trip is awaited.
JavaScript's `for...of` iterates the array object the field referred to at
loop entry; the concurrent `push` mutates that same object (the field
still aliases it), whereas `stopContainer`'s later reassignment
(line 159) replaces the field with a fresh filtered array and leaves the
iterated object alone.  The iterator, already positioned past the first
element, therefore still reaches the pushed spec. -/
def stopWithConcurrentPush (st : MState) (newSpec : Spec) (isRemove : Bool) :
    MState × Except String Unit :=
  match st.running with
  | [] => ({ st with running := st.running ++ [newSpec] }, .ok ())
  | s1 :: rest =>
    let key := "/" ++ s1.containerName
    let st1 := emit st (.stopE s1.containerName)
    match engineStop st1.engine key with
    | (e, .error msg) =>
      ({ st1 with engine := e, running := st1.running ++ [newSpec] }, .error msg)
    | (e, .ok _) =>
      let st2 := { st1 with engine := e, running := st1.running ++ [newSpec] }
      let st2 := { st2 with stopped := st2.stopped ++ [s1] }
      let st2 :=
        if st2.running.contains s1 then
          { st2 with running := st2.running.filter (fun x => x.containerName != s1.containerName) }
        else st2
      match ((if isRemove then
               let st3 := emit st2 (.removeE s1.containerName)
               match engineRemove st3.engine key with
               | (e2, .error msg) => ({ st3 with engine := e2 }, .error msg)
               | (e2, .ok _) => ({ st3 with engine := e2 }, .ok ())
             else (st2, .ok ())) : MState × Except String Unit) with
      | (st3, .error msg) => (st3, .error msg)
      | (st3, .ok _) => stopLoop (rest ++ [newSpec]) st3 isRemove

/-- Number of `pull` RPCs in a trace. -/
def countPulls (l : List Event) : Nat :=
  l.countP (fun e => match e with | .pullE _ => true | _ => false)

/-- Number of `createContainer` RPCs in a trace. -/
def countCreates (l : List Event) : Nat :=
  l.countP (fun e => match e with | .createE _ _ => true | _ => false)

/-- Number of `start` RPCs in a trace. -/
def countStarts (l : List Event) : Nat :=
  l.countP (fun e => match e with | .startE _ => true | _ => false)

/-- The container names of the `stop` RPCs in a trace, in order. -/
def stopNames (l : List Event) : List String :=
  l.filterMap (fun e => match e with | .stopE n => some n | _ => none)

/-- The specs of a batch have pairwise distinct container names. -/
def namesDistinct : List Spec → Bool
  | [] => true
  | s :: rest =>
    (!(rest.any (fun x => x.containerName == s.containerName))) && namesDistinct rest

/-- The engine holds, for `s.containerName`, a container named exactly
`["/" ++ s.containerName]` in status `running`. -/
def stoppable (e : EngineState) (s : Spec) : Bool :=
  match findC e.containers ("/" ++ s.containerName) with
  | some c => (c.names == ["/" ++ s.containerName]) && (c.status == "running")
  | none => false

/-- The RPC trace a run of `stop` appends for a batch whose every stop
(and, when requested, remove) succeeds. -/
def stopTrace (isRemove : Bool) : List Spec → List Event
  | [] => []
  | s :: rest =>
    (if isRemove then [.stopE s.containerName, .removeE s.containerName]
     else [.stopE s.containerName]) ++ stopTrace isRemove rest

/-! Helper lemmas about lists and strings used by the theorems below. -/

lemma slash_ne {a b : String} (h : ¬ a = b) : ¬ ("/" ++ a) = ("/" ++ b) := by
  intro hc
  apply h
  have h2 := congrArg String.data hc
  simp only [String.data_append] at h2
  exact String.ext (by simpa using h2)

lemma find?_none_of_any_false {α : Type} {p : α → Bool} {l : List α} (h : l.any p = false) :
    l.find? p = none := by
  rw [List.find?_eq_none]
  intro x hx
  exact (List.any_eq_false.mp h) x hx

lemma any_true_of_find?_some {α : Type} {p : α → Bool} {l : List α} {a : α}
    (h : l.find? p = some a) : l.any p = true :=
  List.any_eq_true.mpr ⟨a, List.mem_of_find?_eq_some h, List.find?_some h⟩

lemma find?_append_skip {α : Type} {p : α → Bool} {l l2 : List α} (h : l.any p = false) :
    (l ++ l2).find? p = l2.find? p := by
  rw [List.find?_append, find?_none_of_any_false h, Option.none_or]

lemma map_if_id {α : Type} {p : α → Bool} {g : α → α} {l : List α} (h : l.any p = false) :
    l.map (fun x => if p x then g x else x) = l := by
  induction l with
  | nil => rfl
  | cons a l ih =>
    simp only [List.any_cons, Bool.or_eq_false_iff] at h
    simp [h.1, ih h.2]

lemma find?_map_pres {α : Type} {f : α → α} {p : α → Bool} (hp : ∀ x, p (f x) = p x)
    (l : List α) : (l.map f).find? p = (l.find? p).map f := by
  rw [List.find?_map]
  have hfp : (p ∘ f) = p := funext hp
  rw [hfp]

lemma all_filter_self {α : Type} (p : α → Bool) (l : List α) : (l.filter p).all p = true := by
  simp [List.all_filter]

lemma filter_ne_id {l : List Spec} {n : String}
    (h : l.any (fun x => x.containerName == n) = false) :
    l.filter (fun x => x.containerName != n) = l := by
  rw [List.filter_eq_self]
  intro a ha
  have := (List.any_eq_false.mp h) a ha
  simpa [bne] using this

lemma find?_filter_keep {α : Type} {p q : α → Bool} {l : List α} {c : α}
    (h : l.find? p = some c) (hq : q c = true) :
    (l.filter q).find? p = some c := by
  induction l with
  | nil => simp at h
  | cons a l ih =>
    by_cases hpa : p a = true
    · rw [List.find?_cons_of_pos _ hpa] at h
      cases h
      rw [List.filter_cons_of_pos hq, List.find?_cons_of_pos _ hpa]
    · rw [List.find?_cons_of_neg _ hpa] at h
      by_cases hqa : q a = true
      · rw [List.filter_cons_of_pos hqa, List.find?_cons_of_neg _ hpa]
        exact ih h
      · rw [List.filter_cons_of_neg hqa]
        exact ih h

lemma map_colon_id {l : List Char} (h : l.count ':' = 0) :
    l.map (fun c => if c = ':' then '-' else c) = l := by
  induction l with
  | nil => rfl
  | cons a l ih =>
    rw [List.count_cons] at h
    by_cases ha : a = ':'
    · simp [ha] at h
    · have h0 : l.count ':' = 0 := by
        by_cases hb : (a == ':') = true
        · exact absurd (by simpa using hb) ha
        · simpa [hb] using h
      simp [ha, ih h0]

lemma replaceFirst_eq_map {l : List Char} (h : l.count ':' ≤ 1) :
    replaceFirst l = l.map (fun c => if c = ':' then '-' else c) := by
  induction l with
  | nil => rfl
  | cons a l ih =>
    rw [List.count_cons] at h
    by_cases ha : a = ':'
    · have h0 : l.count ':' = 0 := by
        simp [ha] at h
        omega
      simp [replaceFirst, ha, map_colon_id h0]
    · have h1 : l.count ':' ≤ 1 := by
        by_cases hb : (a == ':') = true
        · exact absurd (by simpa using hb) ha
        · simpa [hb] using h
      simp [replaceFirst, ha, ih h1]

/-! Structural facts about the manager's operations. -/

lemma bookkeepStart_engine (st : MState) (s : Spec) :
    (bookkeepStart st s).engine = st.engine := by
  simp only [bookkeepStart]
  split <;> rfl

lemma bookkeepStart_trace (st : MState) (s : Spec) :
    (bookkeepStart st s).trace = st.trace := by
  simp only [bookkeepStart]
  split <;> rfl

lemma bookkeepStart_running (st : MState) (s : Spec) :
    (bookkeepStart st s).running = st.running ++ [s] := by
  simp only [bookkeepStart]
  split <;> rfl

/-- Closed form of `startContainer` on the already-running branch: the
method lists, inspects, logs and returns early (src/index.js:112-115),
touching neither the engine nor the bookkeeping lists. -/
lemma startContainer_running_noop (st : MState) (s : Spec) (c : Container)
    (hfind : findC st.engine.containers ("/" ++ s.containerName) = some c)
    (hrun : c.status = "running") :
    startContainer st s
      = ({ st with trace := st.trace ++ [.listContainersE, .inspectE s.containerName] }, .ok ()) := by
  have hany : st.engine.containers.any (fun x => x.names.contains ("/" ++ s.containerName)) = true :=
    any_true_of_find?_some hfind
  unfold startContainer engineInspect
  simp [emit, findC] at *
  simp [hany, hfind, hrun]

/-- Closed form of `startContainer` on the fresh branch (no container with
the derived name, image present): one create then one start, then the
bookkeeping push. -/
lemma startContainer_fresh (st : MState) (s : Spec)
    (habs : st.engine.containers.any (fun c => c.names.contains ("/" ++ s.containerName)) = false)
    (himg : st.engine.images.any (fun tags => tags.contains s.name) = true) :
    startContainer st s
      = (bookkeepStart
          { st with
            engine := { st.engine with
              containers := st.engine.containers ++ [Container.mk ["/" ++ s.containerName] "running"] },
            trace := st.trace ++ [.listContainersE, .createE s.name s.containerName,
                                  .startE s.containerName] } s,
         .ok ()) := by
  have hnone : findC st.engine.containers ("/" ++ s.containerName) = none :=
    find?_none_of_any_false habs
  have hfind2 : findC (st.engine.containers ++ [Container.mk ["/" ++ s.containerName] "created"])
      ("/" ++ s.containerName)
      = some (Container.mk ["/" ++ s.containerName] "created") := by
    unfold findC at *
    rw [find?_append_skip habs]
    simp
  have hmap : (st.engine.containers ++ [Container.mk ["/" ++ s.containerName] "created"]).map
      (fun x => if x.names.contains ("/" ++ s.containerName)
                then { x with status := "running" } else x)
      = st.engine.containers ++ [Container.mk ["/" ++ s.containerName] "running"] := by
    rw [List.map_append, map_if_id habs]
    simp
  unfold startContainer engineCreate engineStart
  simp only [emit]
  rw [if_neg (by rw [habs]; simp), if_pos himg, if_neg (by rw [hnone]; simp)]
  simp only [hfind2, hmap]
  simp


/-! Concrete fixtures used by the scenario theorems. -/

/-- The spec `{image: "nginx:latest"}` as submitted by the caller (no
container name attached yet). -/
def nginxSpec : Spec := ⟨0, "nginx:latest", ""⟩

/-- A fresh manager against an engine with no images and no containers. -/
def emptyState : MState := ⟨⟨[], [], false⟩, [], [], []⟩

/-- A fresh manager against an engine that already stores the
`nginx:latest` image but has no containers. -/
def imageOnlyState : MState := ⟨⟨[["nginx:latest"]], [], false⟩, [], [], []⟩

/-- C1: the specified end-to-end scenario fails on the code.  On a fresh
engine with neither image nor container, `init` on `{image:
"nginx:latest"}` issues ZERO `pullImage` calls (it never consults the
image store and never pulls): the trace holds only the container listing
and one `createContainer` call, which the engine rejects for lack of the
image, so nothing is started, `listRunning` stays empty — and `init`
resolves successfully anyway.  The claim demanded one pull, one create,
one start and the spec recorded under `nginx-latest-container`. -/
theorem c1_init_never_pulls :
    (initOne emptyState nginxSpec true).2 = .ok () ∧
    countPulls (initOne emptyState nginxSpec true).1.trace = 0 ∧
    countStarts (initOne emptyState nginxSpec true).1.trace = 0 ∧
    (initOne emptyState nginxSpec true).1.trace
      = [.listContainersE, .createE "nginx:latest" "nginx-latest-container"] ∧
    (initOne emptyState nginxSpec true).1.running = [] := by
  exact ⟨rfl, rfl, rfl, by decide, rfl⟩

/-- C2: `init` with `IsStartContainer = false` still creates AND starts the
container: the flag is forwarded at src/index.js:39 to `startContainer`,
which declares no second parameter, so on an engine holding the image the
run performs one `createContainer` and one `start` — the claim said no
engine start call and no container creation would occur. -/
theorem c2_flag_false_still_starts :
    (initOne imageOnlyState nginxSpec false).2 = .ok () ∧
    countCreates (initOne imageOnlyState nginxSpec false).1.trace = 1 ∧
    countStarts (initOne imageOnlyState nginxSpec false).1.trace = 1 ∧
    (initOne imageOnlyState nginxSpec false).1.trace
      = [.listContainersE, .createE "nginx:latest" "nginx-latest-container",
         .startE "nginx-latest-container"] := by
  exact ⟨rfl, rfl, rfl, by decide⟩

/-- C3: a failing convergence is invisible to `init`'s caller.  On a fresh
engine the callback's `startContainer` rejects (`createContainer` fails:
no such image), yet `init`'s promise resolves with success, because
`forEach` never awaits its async callback — contradicting the JSDoc
`@throws` contract at src/index.js:33. -/
theorem c3_init_resolves_despite_failure :
    (initOne emptyState nginxSpec true).2 = .ok () ∧
    (startContainer emptyState
      { nginxSpec with containerName := formatContainerName nginxSpec.name }).2
      = .error "no such image" := by
  exact ⟨rfl, by decide⟩

/-- A spec object recorded as running for container name `c`. -/
def specA : Spec := ⟨0, "img", "c"⟩

/-- A DISTINCT spec object (different identity) with the same
`containerName` `c`. -/
def specB : Spec := ⟨1, "img", "c"⟩

/-- Manager state with `specA` recorded in `running` and its container
running on the engine. -/
def bothListsStart : MState := ⟨⟨[], [⟨["/c"], "running"⟩], false⟩, [specA], [], []⟩

/-- C4: the set-exclusivity invariant breaks for a distinct spec object
with the same `containerName`.  `stopContainer(specB)` succeeds, pushes
`specB` onto `stopped`, but the reference-equality `includes` guard at
src/index.js:158 fails for the distinct object, so `specA` is never
removed from `running`: container name `c` is afterwards a member of BOTH
lists. -/
theorem c4_name_in_both_lists :
    (stopContainer bothListsStart specB false).2 = .ok () ∧
    (stopContainer bothListsStart specB false).1.running.any
      (fun x => x.containerName == "c") = true ∧
    (stopContainer bothListsStart specB false).1.stopped.any
      (fun x => x.containerName == "c") = true := by
  exact ⟨rfl, by decide, by decide⟩

/-- The spec for an externally created container that is already running. -/
def nginxNamed : Spec := ⟨0, "nginx:latest", "nginx-latest-container"⟩

/-- A fresh manager against an engine where `nginx-latest-container`
already exists and is running. -/
def runningOnEngine : MState :=
  ⟨⟨[], [⟨["/nginx-latest-container"], "running"⟩], false⟩, [], [], []⟩

/-- C5 counterexample: for a container already inspected as running,
`startContainer` issues zero starts and succeeds — but the early `return`
at src/index.js:114 skips the bookkeeping, so the spec is NOT recorded in
the running list, which stays empty; the claim said it still ends up
recorded. -/
theorem c5_counterexample_not_recorded :
    (startContainer runningOnEngine nginxNamed).2 = .ok () ∧
    countStarts (startContainer runningOnEngine nginxNamed).1.trace = 0 ∧
    (startContainer runningOnEngine nginxNamed).1.running = [] := by
  exact ⟨rfl, rfl, rfl⟩

/-- C5 (amended): whenever the engine already holds a running container
with the spec's name, `startContainer` lists and inspects only, issues
zero `start` calls, returns success — and leaves the engine and BOTH
bookkeeping lists exactly as they were (the early return skips the
`running` push; the spec stays recorded only if it already was). -/
theorem c5_already_running_noop (st : MState) (s : Spec) (c : Container)
    (hfind : findC st.engine.containers ("/" ++ s.containerName) = some c)
    (hrun : c.status = "running") :
    (startContainer st s).2 = .ok () ∧
    (startContainer st s).1.trace
      = st.trace ++ [.listContainersE, .inspectE s.containerName] ∧
    countStarts (startContainer st s).1.trace = countStarts st.trace ∧
    (startContainer st s).1.running = st.running ∧
    (startContainer st s).1.stopped = st.stopped ∧
    (startContainer st s).1.engine = st.engine := by
  rw [startContainer_running_noop st s c hfind hrun]
  refine ⟨rfl, rfl, ?_, rfl, rfl, rfl⟩
  simp [countStarts, List.countP_append]

/-- C5 witness: the amended statement at the concrete scenario of the
counterexample. -/
theorem c5_already_running_noop_witness :
    (startContainer runningOnEngine nginxNamed).2 = .ok () ∧
    (startContainer runningOnEngine nginxNamed).1.running = runningOnEngine.running := by
  have h := c5_already_running_noop runningOnEngine nginxNamed
    ⟨["/nginx-latest-container"], "running"⟩ (by decide) rfl
  exact ⟨h.1, h.2.2.2.1⟩

/-- C6 counterexample: JavaScript `replace` with a string pattern replaces
only the first occurrence, so for an image reference with two colons the
derived name keeps the second colon, while the specified all-colon
replacement (`specFormatName`) erases both: the two disagree on
`"a:b:c"`. -/
theorem c6_counterexample_second_colon_kept :
    formatContainerName "a:b:c" = "a-b:c-container" ∧
    specFormatName "a:b:c" = "a-b-c-container" ∧
    formatContainerName "a:b:c" ≠ specFormatName "a:b:c" := by
  exact ⟨by decide, by decide, by decide⟩

/-- C6 (amended): `_formatContainerName` replaces only the FIRST `:` of
`<image>-container`; it agrees with the specified replace-every-colon
behaviour exactly on images with at most one colon, and in particular
derives `nginx-latest-container` from `nginx:latest`.  As a Lean
function it is pure and deterministic. -/
theorem c6_first_colon_only (s : String) (h : s.data.count ':' ≤ 1) :
    formatContainerName s = specFormatName s ∧
    formatContainerName "nginx:latest" = "nginx-latest-container" := by
  constructor
  · unfold formatContainerName specFormatName
    apply congrArg String.mk
    apply replaceFirst_eq_map
    rw [String.data_append, List.count_append]
    have h2 : ("-container" : String).data.count ':' = 0 := by decide
    omega
  · decide

/-- C6 witness: the amended statement at `"nginx:latest"`. -/
theorem c6_first_colon_only_witness :
    ("nginx:latest" : String).data.count ':' ≤ 1 ∧
    formatContainerName "nginx:latest" = specFormatName "nginx:latest" := by
  exact ⟨by decide, (c6_first_colon_only "nginx:latest" (by decide)).1⟩

/-- C10: calling `pullImage` with `IsStartContainer` omitted (undefined,
hence falsy — its JSDoc default of `true` is never installed) never
creates or starts a container in either branch: when some stored image's
tags contain the reference the call resolves after the image listing
alone, otherwise after the pull, with zero `createContainer` and zero
`start` RPCs. -/
theorem c10_pull_flag_omitted_no_start (st : MState) (image : Spec) :
    (pullImage st image none).2 = .ok () ∧
    countCreates (pullImage st image none).1.trace = countCreates st.trace ∧
    countStarts (pullImage st image none).1.trace = countStarts st.trace ∧
    ((pullImage st image none).1.trace = st.trace ++ [.listImagesE] ∨
     (pullImage st image none).1.trace = st.trace ++ [.listImagesE, .pullE image.name]) := by
  unfold pullImage truthy
  by_cases h : (st.engine.images.any (fun tags => tags.contains image.name)) = true
  · simp only [emit, h]
    simp [countCreates, countStarts, List.countP_append]
  · have h2 : (st.engine.images.any (fun tags => tags.contains image.name)) = false := by
      simpa using h
    simp only [emit, h2]
    simp [countCreates, countStarts, List.countP_append]



/-- C7: convergence is idempotent.  From any state whose engine holds the
spec's image and no container with the derived name, running
`startContainer` twice yields: both calls succeed, the combined trace
shows exactly one `createContainer` and exactly one `start` (the second
call only lists and inspects), and the second call is a no-op — it leaves
the engine and both bookkeeping lists exactly as the first call left
them. -/
theorem c7_convergence_idempotent (st : MState) (s : Spec)
    (habs : st.engine.containers.any (fun c => c.names.contains ("/" ++ s.containerName)) = false)
    (himg : st.engine.images.any (fun tags => tags.contains s.name) = true) :
    (startContainer st s).2 = .ok () ∧
    (startContainer (startContainer st s).1 s).2 = .ok () ∧
    (startContainer (startContainer st s).1 s).1.trace
      = st.trace ++ [.listContainersE, .createE s.name s.containerName, .startE s.containerName,
                     .listContainersE, .inspectE s.containerName] ∧
    countCreates (startContainer (startContainer st s).1 s).1.trace
      = countCreates st.trace + 1 ∧
    countStarts (startContainer (startContainer st s).1 s).1.trace
      = countStarts st.trace + 1 ∧
    (startContainer (startContainer st s).1 s).1.engine = (startContainer st s).1.engine ∧
    (startContainer (startContainer st s).1 s).1.running = (startContainer st s).1.running ∧
    (startContainer (startContainer st s).1 s).1.stopped = (startContainer st s).1.stopped := by
  have h1 := startContainer_fresh st s habs himg
  have hc1 : (startContainer st s).1.engine.containers
      = st.engine.containers ++ [Container.mk ["/" ++ s.containerName] "running"] := by
    rw [h1]
    rw [bookkeepStart_engine]
  have hfind2 : findC (startContainer st s).1.engine.containers ("/" ++ s.containerName)
      = some (Container.mk ["/" ++ s.containerName] "running") := by
    rw [hc1]
    unfold findC
    rw [find?_append_skip habs]
    simp
  have h2 := startContainer_running_noop (startContainer st s).1 s
    (Container.mk ["/" ++ s.containerName] "running") hfind2 rfl
  have htr1 : (startContainer st s).1.trace
      = st.trace ++ [.listContainersE, .createE s.name s.containerName,
                     .startE s.containerName] := by
    rw [h1]
    rw [bookkeepStart_trace]
  refine ⟨by rw [h1], by rw [h2], ?_, ?_, ?_, by rw [h2], by rw [h2], by rw [h2]⟩
  · rw [h2]
    simp only [htr1]
    simp
  · rw [h2]
    simp only [htr1]
    simp [countCreates, List.countP_append]
  · rw [h2]
    simp only [htr1]
    simp [countStarts, List.countP_append]

/-- C7 witness: both convergence calls on `{image: "nginx:latest"}`
against an engine holding the image and no containers. -/
theorem c7_convergence_idempotent_witness :
    (startContainer imageOnlyState nginxNamed).2 = .ok () ∧
    (startContainer (startContainer imageOnlyState nginxNamed).1 nginxNamed).2 = .ok () ∧
    countCreates (startContainer (startContainer imageOnlyState nginxNamed).1 nginxNamed).1.trace
      = 1 ∧
    countStarts (startContainer (startContainer imageOnlyState nginxNamed).1 nginxNamed).1.trace
      = 1 := by
  have h := c7_convergence_idempotent imageOnlyState nginxNamed (by decide) (by decide)
  exact ⟨h.1, h.2.1, h.2.2.2.1, h.2.2.2.2.1⟩

/-- C8: stopping a recorded-running spec with `removeAfterStop = true`
issues exactly one `stop` RPC followed by exactly one `remove` RPC; the
spec is appended to `stopped` and every record bearing its container name
leaves `running` — and all of this holds whether or not the engine
rejects the remove (an injected `removeFails`): the remove failure
propagates as the call's error but the bookkeeping already happened. -/
theorem c8_stop_then_remove (st : MState) (s : Spec) (c : Container)
    (hmem : st.running.contains s = true)
    (hfind : findC st.engine.containers ("/" ++ s.containerName) = some c)
    (hrun : c.status = "running") :
    (stopContainer st s true).1.trace
      = st.trace ++ [.stopE s.containerName, .removeE s.containerName] ∧
    (stopContainer st s true).1.stopped = st.stopped ++ [s] ∧
    (stopContainer st s true).1.running.all
      (fun x => x.containerName != s.containerName) = true ∧
    (st.engine.removeFails = false → (stopContainer st s true).2 = .ok ()) ∧
    (st.engine.removeFails = true → (stopContainer st s true).2 = .error "remove failed") := by
  have hbeq : (c.status == "running") = true := by
    simp [hrun]
  have hfind3 : findC (setStopped st.engine.containers ("/" ++ s.containerName))
      ("/" ++ s.containerName) = some { c with status := "exited" } := by
    unfold findC setStopped at *
    rw [find?_map_pres (fun x => by split <;> rfl)]
    rw [hfind]
    have hc : c.names.contains ("/" ++ s.containerName) = true := by
      have h2 := List.find?_some hfind
      simpa using h2
    simp only [Option.map_some']
    rw [if_pos hc]
  unfold stopContainer engineStop engineRemove
  simp only [emit, hfind, hbeq]
  simp only [hfind3, hmem]
  by_cases hrf : st.engine.removeFails = true
  · simp [hrf, hfind3, all_filter_self, List.append_assoc]
  · have hrf2 : st.engine.removeFails = false := by simpa using hrf
    simp [hrf2, hfind3, all_filter_self, List.append_assoc]

/-- A spec recorded as running with its container running on an engine
whose remove call is set to fail. -/
def removeFailingState : MState :=
  ⟨⟨[], [⟨["/c"], "running"⟩], true⟩, [⟨0, "i", "c"⟩], [], []⟩

/-- C8 witness: the theorem at a concrete state whose remove call fails —
the spec still moves to `stopped` and off `running`. -/
theorem c8_stop_then_remove_witness :
    (stopContainer removeFailingState ⟨0, "i", "c"⟩ true).1.stopped = [⟨0, "i", "c"⟩] ∧
    (stopContainer removeFailingState ⟨0, "i", "c"⟩ true).1.running.all
      (fun x => x.containerName != "c") = true ∧
    (stopContainer removeFailingState ⟨0, "i", "c"⟩ true).2 = .error "remove failed" := by
  have h := c8_stop_then_remove removeFailingState ⟨0, "i", "c"⟩ ⟨["/c"], "running"⟩
    (by decide) (by decide) rfl
  exact ⟨h.2.1, h.2.2.1, h.2.2.2.2 rfl⟩



/-- Closed form of a successful `stopContainer` without removal: one stop
RPC, the `stopped` push, and the name-keyed filtering of `running` (the
`includes` guard holds because the very record is present). -/
lemma stopContainer_closed_noRemove (st : MState) (s : Spec) (c : Container)
    (hfind : findC st.engine.containers ("/" ++ s.containerName) = some c)
    (hrun : c.status = "running")
    (hmem : st.running.contains s = true) :
    stopContainer st s false
      = ({ st with
           engine := { st.engine with
             containers := setStopped st.engine.containers ("/" ++ s.containerName) },
           running := st.running.filter (fun x => x.containerName != s.containerName),
           stopped := st.stopped ++ [s],
           trace := st.trace ++ [.stopE s.containerName] },
         .ok ()) := by
  have hbeq : (c.status == "running") = true := by
    simp [hrun]
  unfold stopContainer engineStop
  simp only [emit, hfind]
  rw [if_pos hbeq]
  dsimp only
  rw [if_pos hmem]
  simp

/-- Closed form of a successful `stopContainer` with removal and a
non-failing engine remove: one stop RPC then one remove RPC, the
`stopped` push, and the name-keyed filtering of `running`. -/
lemma stopContainer_closed_remove (st : MState) (s : Spec) (c : Container)
    (hfind : findC st.engine.containers ("/" ++ s.containerName) = some c)
    (hrun : c.status = "running")
    (hmem : st.running.contains s = true)
    (hrf : st.engine.removeFails = false) :
    stopContainer st s true
      = ({ st with
           engine := { st.engine with
             containers := ((setStopped st.engine.containers ("/" ++ s.containerName)).filter
               (fun x => !(x.names.contains ("/" ++ s.containerName)))) },
           running := st.running.filter (fun x => x.containerName != s.containerName),
           stopped := st.stopped ++ [s],
           trace := st.trace ++ [.stopE s.containerName, .removeE s.containerName] },
         .ok ()) := by
  have hbeq : (c.status == "running") = true := by
    simp [hrun]
  have hfind3 : findC (setStopped st.engine.containers ("/" ++ s.containerName))
      ("/" ++ s.containerName) = some { c with status := "exited" } := by
    unfold findC setStopped at *
    rw [find?_map_pres (fun x => by split <;> rfl)]
    rw [hfind]
    have hc : c.names.contains ("/" ++ s.containerName) = true := by
      have h2 := List.find?_some hfind
      simpa using h2
    simp only [Option.map_some']
    rw [if_pos hc]
  unfold stopContainer engineStop engineRemove
  simp only [emit, hfind]
  rw [if_pos hbeq]
  dsimp only
  rw [if_pos hmem]
  simp only [hfind3, hrf]
  simp [List.append_assoc]

/-- Eliminate a `stoppable` hypothesis into the exact container record the
engine holds for the spec. -/
lemma stoppable_elim {e : EngineState} {s : Spec} (h : stoppable e s = true) :
    findC e.containers ("/" ++ s.containerName)
      = some (Container.mk ["/" ++ s.containerName] "running") := by
  unfold stoppable at h
  cases hf : findC e.containers ("/" ++ s.containerName) with
  | none => rw [hf] at h; simp at h
  | some c =>
    rw [hf] at h
    simp only [Bool.and_eq_true, beq_iff_eq] at h
    cases c
    simp at h ⊢
    exact ⟨h.1, h.2⟩

/-- Stopping one container leaves every other spec stoppable: the status
update touches only containers bearing the stopped key. -/
lemma stoppable_after_setStopped {e : EngineState} {x : Spec} {k : String}
    (h : stoppable e x = true) (hne : ¬ ("/" ++ x.containerName) = k) :
    stoppable { e with containers := setStopped e.containers k } x = true := by
  have hfind := stoppable_elim h
  have hnc : ¬ ((["/" ++ x.containerName] : List String).contains k = true) := by
    intro hc
    apply hne
    have hk : k = "/" ++ x.containerName := by simpa using hc
    exact hk.symm
  have hpres : findC (setStopped e.containers k) ("/" ++ x.containerName)
      = some (Container.mk ["/" ++ x.containerName] "running") := by
    unfold findC setStopped at *
    rw [find?_map_pres (fun c => by split <;> rfl)]
    rw [hfind]
    simp only [Option.map_some']
    rw [if_neg hnc]
  unfold stoppable
  simp only [hpres]
  simp

/-- Removing one container leaves every other spec stoppable: only
containers bearing the removed key are filtered out. -/
lemma stoppable_after_filter {e : EngineState} {x : Spec} {k : String}
    (h : stoppable e x = true) (hne : ¬ ("/" ++ x.containerName) = k) :
    stoppable { e with containers := e.containers.filter (fun c => !(c.names.contains k)) } x
      = true := by
  have hfind := stoppable_elim h
  have hcf : (["/" ++ x.containerName] : List String).contains k = false := by
    cases hcc : (["/" ++ x.containerName] : List String).contains k with
    | false => rfl
    | true =>
      exfalso
      apply hne
      have hk : k = "/" ++ x.containerName := by simpa using hcc
      exact hk.symm
  have hq : (!((Container.mk ["/" ++ x.containerName] "running").names.contains k)) = true := by
    show (!((["/" ++ x.containerName] : List String).contains k)) = true
    rw [hcf]
    rfl
  have hpres : findC (e.containers.filter (fun c => !(c.names.contains k)))
      ("/" ++ x.containerName)
      = some (Container.mk ["/" ++ x.containerName] "running") := by
    unfold findC at *
    exact find?_filter_keep hfind hq
  unfold stoppable
  simp only [hpres]
  simp

/-- The stop loop over the snapshot: with pairwise-distinct names, every
member's container running, and removes not failing, each member is
stopped exactly once in order, `running` is drained, and every member is
appended to `stopped` in order. -/
lemma stopLoop_ok (l : List Spec) : ∀ (st : MState) (isRemove : Bool),
    namesDistinct l = true →
    l.all (stoppable st.engine) = true →
    st.running = l →
    st.engine.removeFails = false →
    (stopLoop l st isRemove).2 = .ok () ∧
    (stopLoop l st isRemove).1.trace = st.trace ++ stopTrace isRemove l ∧
    (stopLoop l st isRemove).1.running = [] ∧
    (stopLoop l st isRemove).1.stopped = st.stopped ++ l := by
  induction l with
  | nil =>
    intro st isRemove _ _ hrun _
    simp [stopLoop, stopTrace, hrun]
  | cons s rest ih =>
    intro st isRemove hnd hall hrun hrf
    have hnd1 : rest.any (fun x => x.containerName == s.containerName) = false := by
      unfold namesDistinct at hnd
      simp only [Bool.and_eq_true, Bool.not_eq_true'] at hnd
      exact hnd.1
    have hnd2 : namesDistinct rest = true := by
      unfold namesDistinct at hnd
      simp only [Bool.and_eq_true] at hnd
      exact hnd.2
    have hs : stoppable st.engine s = true := by
      simp only [List.all_cons, Bool.and_eq_true] at hall
      exact hall.1
    have hrest : rest.all (stoppable st.engine) = true := by
      simp only [List.all_cons, Bool.and_eq_true] at hall
      exact hall.2
    have hfind := stoppable_elim hs
    have hmem : st.running.contains s = true := by
      rw [hrun]
      simp [List.contains_cons]
    have hfil : st.running.filter (fun x => x.containerName != s.containerName) = rest := by
      rw [hrun]
      rw [List.filter_cons_of_neg (by simp)]
      exact filter_ne_id hnd1
    have hxprep : ∀ x ∈ rest, ¬ ("/" ++ x.containerName) = ("/" ++ s.containerName) := by
      intro x hx
      apply slash_ne
      have := List.any_eq_false.mp hnd1 x hx
      simpa using this
    cases isRemove with
    | false =>
      have hclosed := stopContainer_closed_noRemove st s _ hfind rfl hmem
      have hall2 : rest.all (stoppable { st.engine with
          containers := setStopped st.engine.containers ("/" ++ s.containerName) }) = true := by
        rw [List.all_eq_true]
        intro x hx
        exact stoppable_after_setStopped (List.all_eq_true.mp hrest x hx) (hxprep x hx)
      have hstep := ih { st with
          engine := { st.engine with
            containers := setStopped st.engine.containers ("/" ++ s.containerName) },
          running := rest,
          stopped := st.stopped ++ [s],
          trace := st.trace ++ [.stopE s.containerName] } false hnd2 hall2 rfl hrf
      unfold stopLoop
      rw [hclosed]
      simp only [hfil]
      refine ⟨hstep.1, ?_, hstep.2.2.1, ?_⟩
      · rw [hstep.2.1]
        simp [stopTrace]
      · rw [hstep.2.2.2]
        simp
    | true =>
      have hclosed := stopContainer_closed_remove st s _ hfind rfl hmem hrf
      have hall2 : rest.all (stoppable { st.engine with
          containers := ((setStopped st.engine.containers ("/" ++ s.containerName)).filter
            (fun x => !(x.names.contains ("/" ++ s.containerName)))) }) = true := by
        rw [List.all_eq_true]
        intro x hx
        have h1 := stoppable_after_setStopped (List.all_eq_true.mp hrest x hx) (hxprep x hx)
        have h2 := stoppable_after_filter h1 (hxprep x hx)
        simpa using h2
      have hstep := ih { st with
          engine := { st.engine with
            containers := ((setStopped st.engine.containers ("/" ++ s.containerName)).filter
              (fun x => !(x.names.contains ("/" ++ s.containerName)))) },
          running := rest,
          stopped := st.stopped ++ [s],
          trace := st.trace ++ [.stopE s.containerName, .removeE s.containerName] } true
        hnd2 hall2 rfl hrf
      unfold stopLoop
      rw [hclosed]
      simp only [hfil]
      refine ⟨hstep.1, ?_, hstep.2.2.1, ?_⟩
      · rw [hstep.2.1]
        simp [stopTrace]
      · rw [hstep.2.2.2]
        simp



/-- The stop RPCs of a successful teardown trace are exactly the members'
container names, in order. -/
lemma stopNames_stopTrace (r : Bool) (l : List Spec) :
    stopNames (stopTrace r l) = l.map (fun s => s.containerName) := by
  induction l with
  | nil => rfl
  | cons s rest ih =>
    cases r with
    | false =>
      simp only [stopTrace, stopNames, List.filterMap_append] at *
      simp [ih]
    | true =>
      simp only [stopTrace, stopNames, List.filterMap_append] at *
      simp [ih]

/-- Splitting `stopNames` over a trace append. -/
lemma stopNames_append (a b : List Event) :
    stopNames (a ++ b) = stopNames a ++ stopNames b := by
  unfold stopNames
  rw [List.filterMap_append]

/-- C9 (amended): in a single-task execution, `stop` applies
`stopContainer` exactly once to every member of `running` at the moment it
begins, in order, and to no other spec — the appended trace is exactly the
members' stop (and, when requested, remove) RPCs in order — and the
removals `stopContainer` performs during the loop cannot skip or
duplicate members, because the `for...of` iterator walks the array object
captured at entry while line 159 REPLACES the field rather than mutating
that object.  Hypotheses: members carry pairwise-distinct names, each has
a running container, and the engine's remove does not fail. -/
theorem c9_sequential_snapshot (st : MState) (isRemove : Bool)
    (hnd : namesDistinct st.running = true)
    (hall : st.running.all (stoppable st.engine) = true)
    (hrf : st.engine.removeFails = false) :
    (stop st isRemove).2 = .ok () ∧
    (stop st isRemove).1.trace = st.trace ++ stopTrace isRemove st.running ∧
    stopNames (stop st isRemove).1.trace
      = stopNames st.trace ++ st.running.map (fun s => s.containerName) ∧
    (stop st isRemove).1.running = [] ∧
    (stop st isRemove).1.stopped = st.stopped ++ st.running := by
  have h := stopLoop_ok st.running st isRemove hnd hall rfl hrf
  refine ⟨h.1, h.2.1, ?_, h.2.2.1, h.2.2.2⟩
  show stopNames (stopLoop st.running st isRemove).1.trace = _
  rw [h.2.1, stopNames_append, stopNames_stopTrace]

/-- Two specs with distinct names, both recorded running with running
containers on the engine. -/
def twoRunningState : MState :=
  ⟨⟨[], [⟨["/x"], "running"⟩, ⟨["/y"], "running"⟩], false⟩,
   [⟨0, "a", "x"⟩, ⟨1, "b", "y"⟩], [], []⟩

/-- C9 witness: the amended statement on a two-spec batch with removal. -/
theorem c9_sequential_snapshot_witness :
    (stop twoRunningState true).2 = .ok () ∧
    stopNames (stop twoRunningState true).1.trace = ["x", "y"] ∧
    (stop twoRunningState true).1.running = [] ∧
    (stop twoRunningState true).1.stopped = twoRunningState.running := by
  have h := c9_sequential_snapshot twoRunningState true (by decide) (by decide) rfl
  refine ⟨h.1, ?_, h.2.2.2.1, h.2.2.2.2⟩
  rw [h.2.2.1]
  rfl

/-- One spec recorded running; a second, concurrently started spec will be
pushed during the loop's first engine round trip. -/
def concurrentBase : MState :=
  ⟨⟨[], [⟨["/c1"], "running"⟩, ⟨["/c2"], "running"⟩], false⟩,
   [⟨0, "i1", "c1"⟩], [], []⟩

/-- C9 counterexample: the loop does NOT iterate a stable snapshot.  In
the event-loop execution where a concurrent `startContainer` pushes a new
spec onto the still-aliased array during the first `container.stop()`
round trip, `stop` goes on to stop the concurrently added spec too: the
trace shows stop RPCs for both `c1` and the newly pushed `c2`, and the new
spec even ends up in `stopped` — the claim said a spec added during the
iteration cannot be acted upon in that call. -/
theorem c9_counterexample_concurrent_spec_stopped :
    stopNames (stopWithConcurrentPush concurrentBase ⟨1, "i2", "c2"⟩ false).1.trace
      = ["c1", "c2"] ∧
    (stopWithConcurrentPush concurrentBase ⟨1, "i2", "c2"⟩ false).1.stopped
      = [⟨0, "i1", "c1"⟩, ⟨1, "i2", "c2"⟩] := by
  exact ⟨by decide, by decide⟩


end DockerMgr
